import Mathlib

/-!
Shallow embedding of the reconciliation and persistence engine of
`pyvideo_scrape.py` (classes `Event` and `Video`), together with proofs
about its merge policy, identifier handling, date clamping and
deterministic serialization.

Python dictionaries are embedded as association lists that keep the
insertion order and have no duplicate keys (`dictInsert` reproduces the
CPython update-in-place-or-append semantics).  Python `None` and JSON
`null` are both `JValue.null` (they coincide in CPython's `json` module).
Fallible Python code (`KeyError`, `IndexError`, `ValueError`) is embedded
with `Except String`.
-/

set_option autoImplicit false

namespace PyvideoScrape

/-- JSON values, as produced by `json.load` / consumed by `json.dumps`.
Numbers are integers (every numeric field the scraper writes is an
integer number of seconds). -/
inductive JValue where
  | null
  | bool (b : Bool)
  | num (n : Int)
  | str (s : String)
  | arr (xs : List JValue)
  | obj (m : List (String × JValue))

/-- Association-list lookup (first entry with the given key). -/
def alookup {κ α : Type} [DecidableEq κ] (k : κ) : List (κ × α) → Option α
  | [] => none
  | (k2, v) :: rest => if k2 = k then some v else alookup k rest

/-- CPython `dict` assignment `m[k] = v`: if the key is present its value
is updated in place (the entry keeps its position), otherwise the new
entry is appended at the end. -/
def dictInsert {κ α : Type} [DecidableEq κ] (m : List (κ × α)) (k : κ) (v : α) :
    List (κ × α) :=
  if k ∈ m.map Prod.fst then m.map (fun p => if p.1 = k then (k, v) else p)
  else m ++ [(k, v)]

/-- Builds a Python dict `\x7bkey(v): v for v in vs\x7d` (a dict
comprehension: later elements with an equal key overwrite earlier ones). -/
def buildDict {κ α : Type} [DecidableEq κ] (key : α → κ) (vs : List α) :
    List (κ × α) :=
  vs.foldl (fun m v => dictInsert m (key v) v) []

/-- `d.get(k)` on a JSON object dict: the value, or `None` when the key is
absent. -/
def mGet (m : List (String × JValue)) (k : String) : JValue :=
  (alookup k m).getD .null

/-- `x[0]` on a JSON array (malformed shapes collapse to `null`; on them
the Python code would raise instead, no claim exercises that path). -/
def JValue.idx0 : JValue → JValue
  | .arr (x :: _) => x
  | _ => .null

/-- `x[k]` on a JSON object (malformed shapes collapse to `null`). -/
def JValue.key (v : JValue) (k : String) : JValue :=
  match v with
  | .obj m => mGet m k
  | _ => .null

/-- One video record: the persistence identifier (`filename`, the file
stem) and the JSON metadata dict. -/
structure Video where
  filename : String
  metadata : List (String × JValue)

/-- `video.metadata['videos'][0]['url']`: the first playback-location URL,
the identity key used by `Event.merge_video_data`.  On every record the
program writes or loads this value is a JSON string; a record malformed
here would make the Python code raise, which no claim exercises, so the
non-string shapes collapse to `""`. -/
def Video.firstUrl (v : Video) : String :=
  match ((mGet v.metadata "videos").idx0).key "url" with
  | .str s => s
  | _ => ""

/-- The overwrite policy flags computed in `Event.__init__`
(`self.overwrite, self.add_new_files, self.wipe, self.overwrite_fields`). -/
structure OverwritePolicy where
  overwrite : Bool
  wipe : Bool
  add_new_files : Bool
  overwrite_fields : List String
deriving DecidableEq, Repr

/-- The `overwrite` entry of an event's YAML configuration.  Each boolean
models "the key is present and its value is truthy"; the field list
models "the key `existing_files_fields` is present and truthy" by being
nonempty. -/
structure OverwriteOpt where
  all : Bool
  add_new_files : Bool
  existing_files_fields : List String
deriving DecidableEq, Repr

/-- The policy-parsing logic of `Event.__init__` (lines 96-108): `none`
stands for a missing or falsy `overwrite` entry. -/
def parseOverwrite : Option OverwriteOpt → OverwritePolicy
  | none => ⟨false, false, false, []⟩
  | some o =>
    if o.all then ⟨true, true, false, []⟩
    else ⟨true, false, o.add_new_files, o.existing_files_fields⟩

/-- `Video.merge`: copy of the old record (`self`) with the fields listed
in `fields` overwritten from `new_video`; iterates over the old record's
keys only, and `new_video.metadata.get(field)` yields `None` for a field
the new record lacks. -/
def mergedMetadata (old new : List (String × JValue)) (fields : List String) :
    List (String × JValue) :=
  old.map (fun p => (p.1, if p.1 ∈ fields then mGet new p.1 else mGet old p.1))

/-- `Video.merge` (lines 361-370): the merged record keeps the old
record's `filename`. -/
def Video.merge (self new_video : Video) (fields : List String) : Video :=
  { filename := self.filename
    metadata := mergedMetadata self.metadata new_video.metadata fields }

/-- Placeholder for the (unreachable) `KeyError` branches of
`old_videos[path]` / `new_videos[path]`; every use is guarded by a
membership test on the same dict. -/
def dummyVideo : Video := ⟨"", []⟩

/-- `old_videos` in `Event.merge_video_data`: previously stored records
keyed by their filename. -/
def oldByName (fvs : List Video) : List (String × Video) :=
  buildDict Video.filename fvs

/-- `old_videos_url` in `Event.merge_video_data`: previously stored
records keyed by their first playback URL. -/
def oldByUrl (fvs : List Video) : List (String × Video) :=
  buildDict Video.firstUrl fvs

/-- The filename under which a freshly scraped video is registered: the
matching old record's filename when its playback URL is already known,
its own freshly derived slug otherwise (lines 192-197). -/
def assignedName (fvs : List Video) (v : Video) : String :=
  match alookup v.firstUrl (oldByUrl fvs) with
  | some ov => ov.filename
  | none => v.filename

/-- `new_videos` in `Event.merge_video_data`: freshly scraped records
keyed by their assigned filename. -/
def newByName (fvs yvs : List Video) : List (String × Video) :=
  buildDict (assignedName fvs) yvs

/-- `changes = set(new_videos).intersection(set(old_videos))` (line 208),
iterated here in the `new_videos` insertion order. -/
def changesKeys (fvs yvs : List Video) : List String :=
  ((newByName fvs yvs).map Prod.fst).filter
    (fun k => decide (k ∈ (oldByName fvs).map Prod.fst))

/-- `forgotten = set(old_videos) - set(new_videos)` (line 201), iterated
here in the `old_videos` insertion order. -/
def forgottenKeys (fvs yvs : List Video) : List String :=
  ((oldByName fvs).map Prod.fst).filter
    (fun k => decide (k ∉ (newByName fvs yvs).map Prod.fst))

/-- `adds = set(new_videos) - set(old_videos)` (line 216), iterated here
in the `new_videos` insertion order. -/
def addsKeys (fvs yvs : List Video) : List String :=
  ((newByName fvs yvs).map Prod.fst).filter
    (fun k => decide (k ∉ (oldByName fvs).map Prod.fst))

/-- `old_videos[path].merge(new_videos[path], self.overwrite_fields)` for
a key of `changes` (both lookups are then guaranteed to hit). -/
def mergedOf (fvs yvs : List Video) (fields : List String) (k : String) : Video :=
  ((alookup k (oldByName fvs)).getD dummyVideo).merge
    ((alookup k (newByName fvs yvs)).getD dummyVideo) fields

/-- `Event.merge_video_data` (lines 177-219) as a pure function from the
policy, the records loaded from disk (`self.file_videos`) and the freshly
scraped records (`self.youtube_videos`) to the final record list
(`self.videos`) and the list of "Missing video" warning identifiers.
Python iterates `forgotten`, `changes` and `adds` in `set` order, which
is unspecified; here they are iterated in dict insertion order, and all
theorems below state only order-insensitive facts about them. -/
def mergeVideoData (pol : OverwritePolicy) (file_videos youtube_videos : List Video) :
    List Video × List String :=
  if pol.overwrite then
    if pol.wipe then (youtube_videos, [])
    else if pol.add_new_files || !pol.overwrite_fields.isEmpty then
      let base :=
        if !pol.overwrite_fields.isEmpty then
          (changesKeys file_videos youtube_videos).map
            (mergedOf file_videos youtube_videos pol.overwrite_fields)
        else file_videos
      let warns :=
        if !pol.overwrite_fields.isEmpty then forgottenKeys file_videos youtube_videos
        else []
      let adds :=
        if pol.add_new_files then
          (addsKeys file_videos youtube_videos).map
            (fun k => (alookup k (newByName file_videos youtube_videos)).getD dummyVideo)
        else []
      (base ++ adds, warns)
    else ([], [])
  else (youtube_videos, [])

/-! ## Dates (`Video.__calculate_date_recorded`) -/

/-- A calendar date as held by Python's `datetime.date`. -/
structure PyDate where
  year : Nat
  month : Nat
  day : Nat
deriving DecidableEq, Repr

/-- The total order on `datetime.date` (lexicographic on year, month,
day), as a boolean `a <= b`. -/
def PyDate.ble (a b : PyDate) : Bool :=
  if a.year ≠ b.year then decide (a.year < b.year)
  else if a.month ≠ b.month then decide (a.month < b.month)
  else decide (a.day ≤ b.day)

/-- Decimal rendering of a natural, left-padded with zeros to `w` digits
(as `datetime.date.isoformat` pads). -/
def zeroPad (w n : Nat) : String :=
  let s := toString n
  String.mk (List.replicate (w - s.length) '0' ++ s.data)

/-- `datetime.date.isoformat()`: `YYYY-MM-DD`. -/
def PyDate.iso (d : PyDate) : String :=
  zeroPad 4 d.year ++ "-" ++ zeroPad 2 d.month ++ "-" ++ zeroPad 2 d.day

/-- Decimal digit accumulation for `int(slice)`. -/
def parseNatAux : List Char → Nat → Option Nat
  | [], acc => some acc
  | c :: rest, acc =>
    if c.isDigit then parseNatAux rest (acc * 10 + (c.toNat - 48))
    else none

/-- Python `int(...)` on a string slice of digits: fails on an empty
slice or a non-digit character. -/
def parseNatDigits (cs : List Char) : Option Nat :=
  match cs with
  | [] => none
  | _ => parseNatAux cs 0

/-- `datetime.date(int(s[0:4]), int(s[4:6]), int(s[6:8]))`: `int` fails on
an empty or non-digit slice (Python slices by code point, as `List.take`
and `List.drop` on the character list do); the `datetime.date`
constructor rejects an out-of-range month or day (coarse model of the
external stdlib check: every month is allowed up to 31 days). -/
def parseDate (s : String) : Except String PyDate :=
  let cs := s.data
  match parseNatDigits (cs.take 4), parseNatDigits ((cs.drop 4).take 2),
      parseNatDigits ((cs.drop 6).take 2) with
  | some y, some m, some d =>
    if 1 ≤ m ∧ m ≤ 12 ∧ 1 ≤ d ∧ d ≤ 31 then .ok ⟨y, m, d⟩
    else .error "ValueError: date out of range"
  | _, _, _ => .error "ValueError: invalid literal for int"

/-- The per-event context consumed by `Video.from_youtube` and
`Video.__calculate_date_recorded`: the `Event.__init__` attributes
`know_date`, `date_begin`, `date_end`, `date_default`, `language`,
`tags`, `related_urls` and `minimal_download`. -/
structure EventCtx where
  know_date : Bool
  date_begin : PyDate
  date_end : PyDate
  date_default : PyDate
  language : Option String
  tags : List String
  related_urls : List JValue
  minimal_download : Bool

/-- `Video.__calculate_date_recorded` (lines 280-291): parse the 8-digit
upload date; when the event declares a date range, a date outside
`[date_begin, date_end]` is replaced by the default date. -/
def calculateDateRecorded (ctx : EventCtx) (s : String) : Except String String :=
  match parseDate s with
  | .error e => .error e
  | .ok d =>
    if ctx.know_date && !(ctx.date_begin.ble d && d.ble ctx.date_end) then
      .ok ctx.date_default.iso
    else
      .ok d.iso

/-! ## Slug, URL extraction, normalization (`Video.from_youtube`) -/

/-- Splits a character list into its maximal runs of non-space
characters (`acc` holds the reversed current run). -/
def splitRunsAux : List Char → List Char → List String
  | [], acc => if acc.isEmpty then [] else [String.mk acc.reverse]
  | c :: rest, acc =>
    if c = ' ' then
      if acc.isEmpty then splitRunsAux rest []
      else String.mk acc.reverse :: splitRunsAux rest []
    else splitRunsAux rest (c :: acc)

/-- Modelled from the spec: the slugifier is the external `slugify`
library, absent from this repository; per the spec it lowercases the
title, collapses runs of non-alphanumeric characters into a single `-`
and strips leading/trailing separators (non-ASCII transliteration is not
modelled; no claim uses a non-ASCII title). -/
def slugify (s : String) : String :=
  let cleaned := s.data.map (fun c =>
    if (Char.toLower c).isAlphanum then Char.toLower c else ' ')
  String.intercalate "-" (splitRunsAux cleaned [])

/-- Lexicographic code-point comparison of character lists: the order
Python uses to compare strings (`sorted`, `sort_keys=True`). -/
def strLeAux : List Char → List Char → Bool
  | [], _ => true
  | _ :: _, [] => false
  | a :: as2, b :: bs2 =>
    if a.toNat = b.toNat then strLeAux as2 bs2
    else decide (a.toNat < b.toNat)

/-- Python string `<=`: lexicographic on code points. -/
def strLe (s t : String) : Bool :=
  strLeAux s.data t.data

/-- One raw extracted-video dictionary as handed over by the extraction
collaborator; `none` marks an absent key (access raises `KeyError`).
`formats` is the list of format dictionaries, each reduced to its
optional `language` entry; `filenameField` stands for the `_filename`
key. -/
structure RawVideo where
  fulltitle : Option String
  title : Option String
  filenameField : Option String
  thumbnail : Option String
  webpage_url : Option String
  upload_date : Option String
  duration : Option Int
  formats : Option (List (Option String))
  tags : Option (List String)
  description : Option String

/-- `Video.__calculate_title` (lines 263-273): prefer `fulltitle`, then
`title`, then `_filename`, defaulting to `"Unknown"`. -/
def calcTitle (d : RawVideo) : String :=
  match d.fulltitle with
  | some t => t
  | none =>
    match d.title with
    | some t => t
    | none =>
      match d.filenameField with
      | some t => t
      | none => "Unknown"

/-- `video_data[k]` on a required key: `KeyError` when absent. -/
def req {α : Type} (o : Option α) (k : String) : Except String α :=
  match o with
  | some a => .ok a
  | none => .error ("KeyError: " ++ k)

/-- A character the URL regex `http[s]?://[^ \\\n\t()[\]\x22`´\x27]+`
accepts in the URL body. -/
def urlCharOk (c : Char) : Bool :=
  !(c ∈ [' ', '\\', '\n', '\t', '(', ')', '[', ']', '\x22',
         Char.ofNat 96, Char.ofNat 180, '\x27'])

/-- One regex match attempt at the head of `cs`: an `http://` or
`https://` scheme followed by one or more accepted characters, greedily;
returns the match and the rest of the input. -/
def matchUrlAt (cs : List Char) : Option (String × List Char) :=
  let tryPre (pre : String) : Option (String × List Char) :=
    if cs.take pre.length = pre.data then
      let after := cs.drop pre.length
      let body := after.takeWhile urlCharOk
      if body.isEmpty then none
      else some (String.mk (pre.data ++ body), after.dropWhile urlCharOk)
    else none
  match tryPre "https://" with
  | some r => some r
  | none => tryPre "http://"

/-- Left-to-right non-overlapping scan of `re.findall`; the fuel is the
input length, which bounds the number of scan steps (each step consumes
at least one character). -/
def findUrlsAux : Nat → List Char → List String
  | 0, _ => []
  | _ + 1, [] => []
  | fuel + 1, c :: rest =>
    match matchUrlAt (c :: rest) with
    | some (url, rest2) => url :: findUrlsAux fuel rest2
    | none => findUrlsAux fuel rest

/-- `re.findall(r'http[s]?://[^ \\\n\t()[\]\x22`´\x27]+', description)`. -/
def findUrls (s : String) : List String :=
  findUrlsAux s.length s.data

/-- Python truthiness of an optional string (`None` and `''` are falsy). -/
def optTruthy : Option String → Bool
  | none => false
  | some s => decide (s ≠ "")

/-- An optional string as the JSON value Python would store (`None`
serializes as `null`). -/
def jOfLang : Option String → JValue
  | none => .null
  | some s => .str s

/-- `Video.from_youtube` (lines 314-359): normalize one raw dictionary
into a record, in the statement order of the source (so the first missing
required key determines the error).  `list(set(...))` orders are
unspecified in Python; deduplication here keeps first occurrences and all
theorems below avoid depending on that order. -/
def fromYoutube (ctx : EventCtx) (d : RawVideo) : Except String Video := do
  let title := calcTitle d
  let filename := slugify title
  let thumbnail ← req d.thumbnail "thumbnail"
  let url ← req d.webpage_url "webpage_url"
  let uploadDate ← req d.upload_date "upload_date"
  let recorded ← calculateDateRecorded ctx uploadDate
  let dur ← req d.duration "duration"
  let formats ← req d.formats "formats"
  let fmt0 ← (match formats with
    | [] => Except.error "IndexError: formats"
    | f :: _ => Except.ok f)
  let lang1 : Option String :=
    match fmt0 with
    | some l => some l
    | none => ctx.language
  let language : Option String := if optTruthy lang1 then lang1 else ctx.language
  let base : List (String × JValue) :=
    [("title", .str title),
     ("speakers", .arr [.str "TODO"]),
     ("thumbnail_url", .str thumbnail),
     ("videos", .arr [.obj [("type", .str "youtube"), ("url", .str url)]]),
     ("recorded", .str recorded),
     ("duration", .num dur),
     ("language", jOfLang language),
     ("related_urls", .arr ctx.related_urls)]
  if ctx.minimal_download then
    let m1 := dictInsert base "speakers" (.arr [])
    let m2 := dictInsert m1 "tags" (.arr (ctx.tags.map JValue.str))
    let m3 := dictInsert m2 "description" (.str "")
    return ⟨filename, m3⟩
  else
    let vtags ← req d.tags "tags"
    let desc ← req d.description "description"
    let tags := List.insertionSort (fun a b => strLe a b = true) ((vtags ++ ctx.tags).dedup)
    let urls := (findUrls desc).dedup
    let rel : List JValue :=
      ctx.related_urls ++ urls.map (fun u => .obj [("label", .str u), ("url", .str u)])
    let m1 := dictInsert base "related_urls" (.arr rel)
    let m2 := dictInsert m1 "tags" (.arr (tags.map JValue.str))
    let m3 := dictInsert m2 "description" (.str desc)
    return ⟨filename, m3⟩

/-- The loop of `Event.download_video_data` (lines 161-168) over the
scraped entries: a falsy (`None`) entry is counted as a "Null youtube
video" warning and skipped; for a present entry `Video.from_youtube` is
called, and an exception it raises propagates (aborting the loop).
Returns the collected videos and the warning count. -/
def downloadVideoData (ctx : EventCtx) :
    List (Option RawVideo) → Except String (List Video × Nat)
  | [] => .ok ([], 0)
  | none :: rest =>
    match downloadVideoData ctx rest with
    | .error e => .error e
    | .ok (vs, w) => .ok (vs, w + 1)
  | some raw :: rest =>
    match fromYoutube ctx raw with
    | .error e => .error e
    | .ok v =>
      match downloadVideoData ctx rest with
      | .error e => .error e
      | .ok (vs, w) => .ok (v :: vs, w)

/-! ## Serialization (`JSON_FORMAT_KWARGS`, `json.dumps`) -/

/-- JSON string escaping for the characters the scraper's data can
contain (quote, backslash, newline, tab, carriage return; the stdlib
additionally escapes other control and non-ASCII characters, which is a
deterministic per-character rule just the same). -/
def escapeChar (c : Char) : String :=
  if c = '\x22' then "\\\x22"
  else if c = '\\' then "\\\\"
  else if c = '\n' then "\\n"
  else if c = '\t' then "\\t"
  else if c = '\x0d' then "\\r"
  else String.singleton c

/-- A JSON string literal. -/
def jsonQuote (s : String) : String :=
  "\x22" ++ String.join (s.data.map escapeChar) ++ "\x22"

/-- `indent=2`: the indentation in front of an item at nesting level
`lvl`. -/
def indentStr (lvl : Nat) : String :=
  String.mk (List.replicate (2 * lvl) ' ')

/-- The key comparison `sort_keys=True` sorts object items by. -/
def keyLe (p q : String × JValue) : Prop :=
  strLe p.1 q.1 = true

instance : DecidableRel keyLe := fun p q => instDecidableEqBool (strLe p.1 q.1) true

/-- `sort_keys=True`: object items in ascending key order (Python's sort
is stable, as is insertion sort). -/
def sortPairs (l : List (String × JValue)) : List (String × JValue) :=
  List.insertionSort keyLe l

/-- The size of a list is invariant under permutation. -/
theorem sizeOf_eq_of_perm {α : Type} [SizeOf α] {l1 l2 : List α}
    (h : l1.Perm l2) : sizeOf l1 = sizeOf l2 := by
  induction h with
  | nil => rfl
  | cons x _ ih => simp only [List.cons.sizeOf_spec]; omega
  | swap x y l => simp only [List.cons.sizeOf_spec]; omega
  | trans _ _ ih1 ih2 => omega

mutual
/-- `json.dumps(v, indent=2, separators=(',', ': '), sort_keys=True)` at
nesting level `lvl`. -/
def dumpVal : JValue → Nat → String
  | .null, _ => "null"
  | .bool b, _ => cond b "true" "false"
  | .num n, _ => toString n
  | .str s, _ => jsonQuote s
  | .arr [], _ => "[]"
  | .arr (x :: xs), lvl =>
    "[\n" ++ dumpItems (x :: xs) (lvl + 1) ++ "\n" ++ indentStr lvl ++ "]"
  | .obj [], _ => "\x7b\x7d"
  | .obj (p :: ps), lvl =>
    "\x7b\n" ++ dumpPairs (sortPairs (p :: ps)) (lvl + 1) ++ "\n" ++ indentStr lvl ++ "\x7d"
termination_by v _ => sizeOf v
decreasing_by
  · simp_wf
  · have h : sizeOf (sortPairs (p :: ps)) = sizeOf (p :: ps) :=
      sizeOf_eq_of_perm (List.perm_insertionSort keyLe (p :: ps))
    simp only [List.cons.sizeOf_spec] at h
    simp_wf
    omega

/-- Array items, one per line, separated by the `','` item separator. -/
def dumpItems : List JValue → Nat → String
  | [], _ => ""
  | [x], lvl => indentStr lvl ++ dumpVal x lvl
  | x :: y :: xs, lvl =>
    indentStr lvl ++ dumpVal x lvl ++ ",\n" ++ dumpItems (y :: xs) lvl
termination_by xs _ => sizeOf xs
decreasing_by
  all_goals simp_wf <;> omega

/-- Object items `"key": value`, one per line, separated by `','`. -/
def dumpPairs : List (String × JValue) → Nat → String
  | [], _ => ""
  | [(k, v)], lvl => indentStr lvl ++ jsonQuote k ++ ": " ++ dumpVal v lvl
  | (k, v) :: q :: ps, lvl =>
    indentStr lvl ++ jsonQuote k ++ ": " ++ dumpVal v lvl ++ ",\n" ++ dumpPairs (q :: ps) lvl
termination_by l _ => sizeOf l
decreasing_by
  all_goals simp_wf <;> omega
end

/-- `json.dumps(metadata, **JSON_FORMAT_KWARGS)`. -/
def jsonDumps (v : JValue) : String :=
  dumpVal v 0

/-- The text `Video.save` writes: the serialized metadata plus the
trailing `'\n'` (line 385). -/
def videoFileText (v : Video) : String :=
  jsonDumps (.obj v.metadata) ++ "\n"

/-! ## Persistence (`Video.save`, `Event.save_video_data`) -/

/-- The candidate collision name `stem + '-' + str(n) + '.json'`. -/
def candName (stem : String) (n : Nat) : String :=
  stem ++ "-" ++ toString n ++ ".json"

/-- The `while new_path.exists()` loop of `Video.save`: try
`stem-n.json`, `stem-(n+1).json`, ... until a name is free.  The fuel
only bounds the search; with `existing.length + 1` candidates at least
one is free, so the fuel never runs out on the inputs the theorems are
stated about. -/
def nextFree (existing : List String) (stem : String) : Nat → Nat → String
  | n, 0 => candName stem n
  | n, fuel + 1 =>
    if candName stem n ∈ existing then nextFree existing stem (n + 1) fuel
    else candName stem n

/-- The destination-name logic of `Video.save` (lines 372-383): the plain
`filename.json` when free, otherwise numeric suffixes starting at `-2`. -/
def savePath (existing : List String) (filename : String) : String :=
  let path := filename ++ ".json"
  if path ∈ existing then nextFree existing filename 2 (existing.length + 1)
  else path

/-- `Video.save`: write the serialized record into the directory (a list
of `(name, content)` files) under the collision-resolved name. -/
def saveVideo (dir : List (String × String)) (v : Video) : List (String × String) :=
  dir ++ [(savePath (dir.map Prod.fst) v.filename, videoFileText v)]

/-- `Event.save_video_data` (lines 221-228): when `self.overwrite` is
set, every `*.json` file of the videos directory is unlinked first; then
each video of the final set is saved in order. -/
def saveVideoData (pol : OverwritePolicy) (dir : List (String × String))
    (videos : List Video) : List (String × String) :=
  let dir0 := if pol.overwrite then dir.filter (fun p => !p.1.endsWith ".json") else dir
  videos.foldl saveVideo dir0

/-! ## Concrete fixtures used by the theorems below -/

/-- An old record with a playback URL, as `Video.from_file` would load it. -/
def vOldA : Video :=
  ⟨"a", [("title", .str "Old title"),
         ("videos", .arr [.obj [("type", .str "youtube"), ("url", .str "U1")]])]⟩

/-- The merge policy with `overwrite_fields = ['title']` and
`add_new_files` unset. -/
def polMergeTitle : OverwritePolicy := ⟨true, false, false, ["title"]⟩

/-- A freshly scraped record sharing `vOldA`'s playback URL `U1` but with
an edited title, hence the fresh slug `new-title`. -/
def vNewB : Video :=
  ⟨"new-title", [("title", .str "New title"),
         ("videos", .arr [.obj [("type", .str "youtube"), ("url", .str "U1")]])]⟩

/-- The replace-all policy (`overwrite: \x7ball: true\x7d`). -/
def polWipe : OverwritePolicy := ⟨true, true, false, []⟩

/-- An event context declaring the range 2024-06-01 .. 2024-06-30 with
default 2024-06-01. -/
def ctxJune : EventCtx :=
  ⟨true, ⟨2024, 6, 1⟩, ⟨2024, 6, 30⟩, ⟨2024, 6, 1⟩, some "eng", [], [], false⟩

/-- An event context with no date range, no shared tags or URLs, not
minimal. -/
def ctxPlain : EventCtx :=
  ⟨false, ⟨0, 1, 1⟩, ⟨0, 1, 1⟩, ⟨0, 1, 1⟩, some "eng", [], [], false⟩

/-- A well-formed raw entry. -/
def rawTalkA : RawVideo :=
  ⟨some "Talk A", none, none, some "THA", some "U-A", some "20240101",
   some 3600, some [none], some [], some "plain description"⟩

/-- A second well-formed raw entry. -/
def rawTalkB : RawVideo :=
  { rawTalkA with fulltitle := some "Talk B", webpage_url := some "U-B" }

/-- A malformed raw entry: present (truthy) but missing the required
`thumbnail` key. -/
def rawBroken : RawVideo :=
  { rawTalkA with fulltitle := some "Broken", thumbnail := none }

/-- No overwrite configured: the `replace-new-only` default. -/
def polNone : OverwritePolicy := ⟨false, false, false, []⟩

/-- First of two scraped videos titled "Keynote". -/
def rawKeynoteA : RawVideo :=
  ⟨some "Keynote", none, none, some "THK", some "U-K1", some "20240101",
   some 3600, some [none], some [], some "talk one"⟩

/-- Second scraped video, also titled "Keynote" (distinct URL). -/
def rawKeynoteB : RawVideo :=
  ⟨some "Keynote", none, none, some "THK", some "U-K2", some "20240101",
   some 3600, some [none], some [], some "talk two"⟩

/-- The C7 scenario: an event with no prior data and no overwrite
policy, two scraped videos both titled "Keynote"; the names of the files
written into the empty videos directory. -/
def keynoteScenario : List String :=
  match downloadVideoData ctxPlain [some rawKeynoteA, some rawKeynoteB] with
  | .ok (vs, _) =>
    (saveVideoData polNone [] (mergeVideoData polNone [] vs).1).map Prod.fst
  | .error e => [e]

/-! ## Association-list and dict lemmas -/

section DictLemmas

variable {κ α : Type} [DecidableEq κ]

theorem alookup_isSome_iff (m : List (κ × α)) (k : κ) :
    (alookup k m).isSome ↔ k ∈ m.map Prod.fst := by
  induction m with
  | nil => simp [alookup]
  | cons p rest ih =>
    obtain ⟨k2, v⟩ := p
    by_cases h : k2 = k
    · subst h; simp [alookup]
    · simp [alookup, h, ih, Ne.symm h]

theorem alookup_eq_none_iff (m : List (κ × α)) (k : κ) :
    alookup k m = none ↔ k ∉ m.map Prod.fst := by
  rw [← alookup_isSome_iff, Option.isSome_iff_exists]
  cases alookup k m <;> simp

theorem mem_of_alookup_eq_some {m : List (κ × α)} {k : κ} {v : α}
    (h : alookup k m = some v) : (k, v) ∈ m := by
  induction m with
  | nil => simp [alookup] at h
  | cons p rest ih =>
    obtain ⟨k2, w⟩ := p
    by_cases hk : k2 = k
    · subst hk
      simp [alookup] at h
      simp [h]
    · simp [alookup, hk] at h
      simp [ih h]

theorem mem_keys_of_alookup_eq_some {m : List (κ × α)} {k : κ} {v : α}
    (h : alookup k m = some v) : k ∈ m.map Prod.fst := by
  rw [← alookup_isSome_iff, h]
  rfl

theorem keys_dictInsert_of_mem {m : List (κ × α)} {k : κ} (v : α)
    (h : k ∈ m.map Prod.fst) :
    (dictInsert m k v).map Prod.fst = m.map Prod.fst := by
  simp only [dictInsert, if_pos h, List.map_map]
  apply List.map_congr_left
  intro p _
  by_cases hp : p.1 = k <;> simp [hp]

theorem keys_dictInsert_of_not_mem {m : List (κ × α)} {k : κ} (v : α)
    (h : k ∉ m.map Prod.fst) :
    (dictInsert m k v).map Prod.fst = m.map Prod.fst ++ [k] := by
  simp [dictInsert, if_neg h]

theorem mem_keys_dictInsert_iff (m : List (κ × α)) (k a : κ) (v : α) :
    a ∈ (dictInsert m k v).map Prod.fst ↔ a ∈ m.map Prod.fst ∨ a = k := by
  by_cases h : k ∈ m.map Prod.fst
  · rw [keys_dictInsert_of_mem v h]
    constructor
    · exact Or.inl
    · rintro (ha | rfl)
      · exact ha
      · exact h
  · rw [keys_dictInsert_of_not_mem v h]
    simp

theorem entry_dictInsert {P : κ × α → Prop} {m : List (κ × α)} {k : κ} {v : α}
    (hm : ∀ p ∈ m, P p) (hkv : P (k, v)) :
    ∀ p ∈ dictInsert m k v, P p := by
  intro p hp
  unfold dictInsert at hp
  split at hp
  · obtain ⟨q, hq, hqp⟩ := List.mem_map.1 hp
    by_cases h : q.1 = k
    · simp only [if_pos h] at hqp
      exact hqp ▸ hkv
    · simp only [if_neg h] at hqp
      exact hqp ▸ hm q hq
  · rcases List.mem_append.1 hp with h | h
    · exact hm p h
    · simp at h
      exact h ▸ hkv

theorem entry_foldl_dictInsert {key : α → κ} {Q : α → Prop} :
    ∀ (vs : List α) (m : List (κ × α)),
      (∀ p ∈ m, p.1 = key p.2 ∧ Q p.2) → (∀ v ∈ vs, Q v) →
      ∀ p ∈ vs.foldl (fun m v => dictInsert m (key v) v) m, p.1 = key p.2 ∧ Q p.2 := by
  intro vs
  induction vs with
  | nil => intro m hm _ p hp; exact hm p hp
  | cons v t ih =>
    intro m hm hvs p hp
    refine ih (dictInsert m (key v) v) ?_ (fun u hu => hvs u (List.mem_cons_of_mem _ hu)) p hp
    exact entry_dictInsert hm ⟨rfl, hvs v (List.mem_cons_self _ _)⟩

/-- Every entry of `buildDict key vs` has the form `(key v, v)` for a
`v ∈ vs`. -/
theorem entry_buildDict {key : α → κ} {vs : List α} :
    ∀ p ∈ buildDict key vs, p.1 = key p.2 ∧ p.2 ∈ vs :=
  entry_foldl_dictInsert vs [] (by simp) (fun _ h => h)

theorem mem_keys_foldl_dictInsert {key : α → κ} :
    ∀ (vs : List α) (m : List (κ × α)) (k : κ),
      (k ∈ m.map Prod.fst ∨ ∃ v ∈ vs, key v = k) →
      k ∈ (vs.foldl (fun m v => dictInsert m (key v) v) m).map Prod.fst := by
  intro vs
  induction vs with
  | nil =>
    intro m k h
    rcases h with h | ⟨v, hv, _⟩
    · exact h
    · simp at hv
  | cons v t ih =>
    intro m k h
    apply ih (dictInsert m (key v) v) k
    rcases h with h | ⟨u, hu, hk⟩
    · exact Or.inl ((mem_keys_dictInsert_iff _ _ _ _).2 (Or.inl h))
    · rcases List.mem_cons.1 hu with rfl | hu
      · exact Or.inl ((mem_keys_dictInsert_iff _ _ _ _).2 (Or.inr hk.symm))
      · exact Or.inr ⟨u, hu, hk⟩

/-- `key v` is a key of `buildDict key vs` for every `v ∈ vs`. -/
theorem mem_keys_buildDict {key : α → κ} {vs : List α} {v : α} (hv : v ∈ vs) :
    key v ∈ (buildDict key vs).map Prod.fst :=
  mem_keys_foldl_dictInsert vs [] (key v) (Or.inr ⟨v, hv, rfl⟩)

end DictLemmas

/-- A looked-up old record carries the key as its filename and comes from
the loaded files. -/
theorem oldByName_entry {fvs : List Video} {k : String} {ov : Video}
    (h : alookup k (oldByName fvs) = some ov) :
    ov.filename = k ∧ ov ∈ fvs := by
  have := @entry_buildDict String Video _ Video.filename fvs _ (mem_of_alookup_eq_some h)
  exact ⟨this.1.symm, this.2⟩

/-- A looked-up URL-indexed record comes from the loaded files. -/
theorem oldByUrl_entry {fvs : List Video} {u : String} {ov : Video}
    (h : alookup u (oldByUrl fvs) = some ov) :
    ov.firstUrl = u ∧ ov ∈ fvs := by
  have := @entry_buildDict String Video _ Video.firstUrl fvs _ (mem_of_alookup_eq_some h)
  exact ⟨this.1.symm, this.2⟩

/-- A looked-up new record was registered under its assigned name and is
one of the scraped videos. -/
theorem newByName_entry {fvs yvs : List Video} {k : String} {nv : Video}
    (h : alookup k (newByName fvs yvs) = some nv) :
    assignedName fvs nv = k ∧ nv ∈ yvs := by
  have := @entry_buildDict String Video _ (assignedName fvs) yvs _ (mem_of_alookup_eq_some h)
  exact ⟨this.1.symm, this.2⟩

/-- A new record registered under a name that is not an old key carries
its own freshly derived filename: the URL-match branch of `assignedName`
always returns a key of `old_videos`. -/
theorem newByName_filename {fvs yvs : List Video} {k : String} {nv : Video}
    (h : alookup k (newByName fvs yvs) = some nv)
    (hnot : k ∉ (oldByName fvs).map Prod.fst) :
    nv.filename = k := by
  obtain ⟨hassign, _⟩ := newByName_entry h
  unfold assignedName at hassign
  split at hassign
  · next ov hov =>
    exfalso
    apply hnot
    rw [← hassign]
    exact mem_keys_buildDict (oldByUrl_entry hov).2
  · exact hassign

/-- In the field-overwrite branch (`overwrite` set, not `wipe`, a
nonempty `overwrite_fields`), the final set consists of the merged
records for the shared identifiers, plus — with `add_new_files` — the
genuinely new records; the warnings are the forgotten identifiers. -/
theorem mergeVideoData_fields_branch (pol : OverwritePolicy) (fvs yvs : List Video)
    (hov : pol.overwrite = true) (hw : pol.wipe = false)
    (hf : pol.overwrite_fields ≠ []) :
    mergeVideoData pol fvs yvs =
      ((changesKeys fvs yvs).map (mergedOf fvs yvs pol.overwrite_fields) ++
        (if pol.add_new_files then
          (addsKeys fvs yvs).map (fun k => (alookup k (newByName fvs yvs)).getD dummyVideo)
        else []),
       forgottenKeys fvs yvs) := by
  have hne : pol.overwrite_fields.isEmpty = false := by
    cases hfe : pol.overwrite_fields with
    | nil => exact absurd hfe hf
    | cons a t => rfl
  simp [mergeVideoData, hov, hw, hne]

/-- A merged record of the `changes` loop carries the shared identifier
as its filename. -/
theorem mergedOf_filename {fvs : List Video} (yvs : List Video)
    (fields : List String) {k : String}
    (hk : k ∈ (oldByName fvs).map Prod.fst) :
    (mergedOf fvs yvs fields k).filename = k := by
  obtain ⟨ov, hov⟩ := Option.isSome_iff_exists.1 ((alookup_isSome_iff _ _).2 hk)
  unfold mergedOf
  rw [hov]
  simpa [Video.merge] using (oldByName_entry hov).1

/-- In the field-overwrite branch every record of the final set carries
an identifier of the `new_videos` dict. -/
theorem final_names_mem_newKeys (pol : OverwritePolicy) (fvs yvs : List Video)
    (hov : pol.overwrite = true) (hw : pol.wipe = false)
    (hf : pol.overwrite_fields ≠ []) :
    ∀ v ∈ (mergeVideoData pol fvs yvs).1,
      v.filename ∈ (newByName fvs yvs).map Prod.fst := by
  intro v hv
  rw [mergeVideoData_fields_branch pol fvs yvs hov hw hf] at hv
  rcases List.mem_append.1 hv with h | h
  · obtain ⟨k, hk, rfl⟩ := List.mem_map.1 h
    have hkc := List.mem_filter.1 hk
    rw [mergedOf_filename yvs _ (of_decide_eq_true hkc.2)]
    exact hkc.1
  · split at h
    · obtain ⟨k, hk, rfl⟩ := List.mem_map.1 h
      have hkc := List.mem_filter.1 hk
      have hknot : k ∉ (oldByName fvs).map Prod.fst := of_decide_eq_true hkc.2
      obtain ⟨nv, hnv⟩ := Option.isSome_iff_exists.1 ((alookup_isSome_iff _ _).2 hkc.1)
      rw [hnv]
      simp only [Option.getD_some]
      rw [newByName_filename hnv hknot]
      exact hkc.1
    · simp at h

/-- An identifier present in both dicts contributes the merged record
`old.merge new fields` to the final set of the field-overwrite branch. -/
theorem merged_mem_final (pol : OverwritePolicy) (fvs yvs : List Video)
    (k : String) (ov nv : Video)
    (hov : pol.overwrite = true) (hw : pol.wipe = false)
    (hf : pol.overwrite_fields ≠ [])
    (hold : alookup k (oldByName fvs) = some ov)
    (hnew : alookup k (newByName fvs yvs) = some nv) :
    ov.merge nv pol.overwrite_fields ∈ (mergeVideoData pol fvs yvs).1 := by
  rw [mergeVideoData_fields_branch pol fvs yvs hov hw hf]
  apply List.mem_append_left
  have hkch : k ∈ changesKeys fvs yvs := by
    apply List.mem_filter.2
    exact ⟨mem_keys_of_alookup_eq_some hnew,
      decide_eq_true (mem_keys_of_alookup_eq_some hold)⟩
  have heq : mergedOf fvs yvs pol.overwrite_fields k = ov.merge nv pol.overwrite_fields := by
    unfold mergedOf
    rw [hold, hnew]
    rfl
  exact heq ▸ List.mem_map_of_mem _ hkch

/-! ## Claim C1 -/

/-- C1 counterexample: with `overwrite_fields` configured, an identifier
present in the old set but missing from the new set is logged as a
"Missing video" warning but is NOT retained: reconciling the single old
record `a` against an empty scrape yields an empty final set. -/
theorem claim_C1_counterexample :
    (mergeVideoData polMergeTitle [vOldA] []).2 = ["a"] ∧
    vOldA ∉ (mergeVideoData polMergeTitle [vOldA] []).1 := by
  constructor
  · rfl
  · have h : (mergeVideoData polMergeTitle [vOldA] []).1 = [] := rfl
    rw [h]
    exact List.not_mem_nil _

/-- C1 (amended): under merge with `overwrite_fields` configured, an
identifier present in the old set but missing from the new set is logged
as a warning and DROPPED from the final set (no final record carries it);
an identifier present in both sets appears as the merged record. -/
theorem claim_C1_old_only_dropped (pol : OverwritePolicy) (fvs yvs : List Video)
    (k : String) (ov : Video)
    (hov : pol.overwrite = true) (hw : pol.wipe = false)
    (hf : pol.overwrite_fields ≠ [])
    (hold : alookup k (oldByName fvs) = some ov) :
    (alookup k (newByName fvs yvs) = none →
      k ∈ (mergeVideoData pol fvs yvs).2 ∧
      ∀ v ∈ (mergeVideoData pol fvs yvs).1, v.filename ≠ k) ∧
    (∀ nv, alookup k (newByName fvs yvs) = some nv →
      ov.merge nv pol.overwrite_fields ∈ (mergeVideoData pol fvs yvs).1) := by
  constructor
  · intro hnone
    have hknot : k ∉ (newByName fvs yvs).map Prod.fst :=
      (alookup_eq_none_iff _ _).1 hnone
    constructor
    · rw [mergeVideoData_fields_branch pol fvs yvs hov hw hf]
      apply List.mem_filter.2
      exact ⟨mem_keys_of_alookup_eq_some hold, decide_eq_true hknot⟩
    · intro v hv
      intro hvk
      exact hknot (hvk ▸ final_names_mem_newKeys pol fvs yvs hov hw hf v hv)
  · intro nv hnew
    exact merged_mem_final pol fvs yvs k ov nv hov hw hf hold hnew

/-! ## Claim C2 -/

/-- Witness for C1: at the concrete inputs, the forgotten identifier `a`
is warned about and no final record carries it; and with a matching new
record the merged record is in the final set. -/
theorem claim_C1_old_only_dropped_witness :
    ("a" ∈ (mergeVideoData polMergeTitle [vOldA] []).2 ∧
      ∀ v ∈ (mergeVideoData polMergeTitle [vOldA] []).1, v.filename ≠ "a") ∧
    vOldA.merge vNewB polMergeTitle.overwrite_fields ∈
      (mergeVideoData polMergeTitle [vOldA] [vNewB]).1 :=
  ⟨(claim_C1_old_only_dropped polMergeTitle [vOldA] [] "a" vOldA rfl rfl
      (by decide) rfl).1 rfl,
   (claim_C1_old_only_dropped polMergeTitle [vOldA] [vNewB] "a" vOldA rfl rfl
      (by decide) rfl).2 vNewB rfl⟩

/-- C2 counterexample: URL-based identity does NOT win under every
policy.  Under the replace-all (`wipe`) policy the old index is never
consulted: old record `a` and new record share the playback URL `U1` and
have different titles, yet the final set is exactly the new record under
its freshly derived slug `new-title`, and no final record keeps the old
identifier `a`. -/
theorem claim_C2_counterexample :
    vOldA.firstUrl = vNewB.firstUrl ∧
    mGet vOldA.metadata "title" ≠ mGet vNewB.metadata "title" ∧
    vOldA.filename = "a" ∧ vNewB.filename = "new-title" ∧
    (mergeVideoData polWipe [vOldA] [vNewB]).1 = [vNewB] ∧
    ∀ v ∈ (mergeVideoData polWipe [vOldA] [vNewB]).1, v.filename ≠ "a" := by
  refine ⟨rfl, ?_, rfl, rfl, rfl, ?_⟩
  · have h1 : mGet vOldA.metadata "title" = .str "Old title" := rfl
    have h2 : mGet vNewB.metadata "title" = .str "New title" := rfl
    rw [h1, h2]
    intro h
    injection h with hs
    exact absurd hs (by decide)
  · intro v hv
    have h : (mergeVideoData polWipe [vOldA] [vNewB]).1 = [vNewB] := rfl
    rw [h] at hv
    have hv2 := List.mem_singleton.1 hv
    subst hv2
    decide

/-- C2 (amended): URL identity wins over slug identity only inside the
merge branch: when a new record's playback URL is a key of the old URL
index, it is registered under the matching old record's identifier.
Under the replace-all (`wipe`) policy and under no-overwrite the final
set is the freshly scraped list unchanged, each record keeping its own
freshly derived slug. -/
theorem claim_C2_url_identity_scope (pol : OverwritePolicy) (fvs yvs : List Video)
    (nv ov : Video)
    (hmatch : alookup nv.firstUrl (oldByUrl fvs) = some ov) :
    assignedName fvs nv = ov.filename ∧
    (pol.overwrite = true → pol.wipe = true → mergeVideoData pol fvs yvs = (yvs, [])) ∧
    (pol.overwrite = false → mergeVideoData pol fvs yvs = (yvs, [])) := by
  refine ⟨?_, ?_, ?_⟩
  · unfold assignedName
    rw [hmatch]
  · intro h1 h2
    simp [mergeVideoData, h1, h2]
  · intro h1
    simp [mergeVideoData, h1]

/-- Witness for C2: the matching new record is registered under the old
identifier `a`, and under `wipe` the final set is the scraped list
verbatim. -/
theorem claim_C2_url_identity_scope_witness :
    assignedName [vOldA] vNewB = vOldA.filename ∧
    mergeVideoData polWipe [vOldA] [vNewB] = ([vNewB], []) :=
  ⟨(claim_C2_url_identity_scope polWipe [vOldA] [vNewB] vNewB vOldA rfl).1,
   (claim_C2_url_identity_scope polWipe [vOldA] [vNewB] vNewB vOldA rfl).2.1 rfl rfl⟩

/-! ## Claims C6 and C10: `Video.merge` -/

theorem alookup_map_pairfun {α β : Type} (G : String → β) (l : List (String × α))
    (k : String) :
    alookup k (l.map (fun p => (p.1, G p.1))) = (alookup k l).map (fun _ => G k) := by
  induction l with
  | nil => rfl
  | cons p t ih =>
    obtain ⟨k1, v1⟩ := p
    by_cases h : k1 = k
    · subst h
      simp [alookup]
    · simp [alookup, h, ih]

/-- The merged metadata looked up at any key: present exactly when the
key is present in the old metadata, with the new value for a field of
`overwrite_fields` and the old value otherwise. -/
theorem alookup_mergedMetadata (old new : List (String × JValue))
    (fields : List String) (k : String) :
    alookup k (mergedMetadata old new fields) =
      (alookup k old).map (fun _ => if k ∈ fields then mGet new k else mGet old k) :=
  alookup_map_pairfun (fun x => if x ∈ fields then mGet new x else mGet old x) old k

/-- A field outside `overwrite_fields` keeps its old value (also its old
absence). -/
theorem alookup_mergedMetadata_not_mem (old new : List (String × JValue))
    (fields : List String) (k : String) (hk : k ∉ fields) :
    alookup k (mergedMetadata old new fields) = alookup k old := by
  rw [alookup_mergedMetadata]
  cases h : alookup k old with
  | none => rfl
  | some w => simp [if_neg hk, mGet, h]

/-- C6: under merge with `overwrite_fields = ['title']`, an identifier
present in both sets with differing titles yields a final record that
keeps the old identifier, carries the new title, and agrees with the old
record on every other field. -/
theorem claim_C6_title_overwrite (pol : OverwritePolicy) (fvs yvs : List Video)
    (k : String) (ov nv : Video) (told tnew : JValue)
    (hov : pol.overwrite = true) (hw : pol.wipe = false)
    (hf : pol.overwrite_fields = ["title"])
    (hold : alookup k (oldByName fvs) = some ov)
    (hnew : alookup k (newByName fvs yvs) = some nv)
    (htold : alookup "title" ov.metadata = some told)
    (htnew : alookup "title" nv.metadata = some tnew)
    (hdiff : told ≠ tnew) :
    ∃ v ∈ (mergeVideoData pol fvs yvs).1,
      v.filename = ov.filename ∧ v.filename = k ∧
      alookup "title" v.metadata = some tnew ∧
      ∀ f, f ≠ "title" → alookup f v.metadata = alookup f ov.metadata := by
  refine ⟨ov.merge nv pol.overwrite_fields, ?_, ?_, ?_, ?_, ?_⟩
  · exact merged_mem_final pol fvs yvs k ov nv hov hw (by rw [hf]; simp) hold hnew
  · rfl
  · exact (oldByName_entry hold).1
  · show alookup "title" (mergedMetadata ov.metadata nv.metadata pol.overwrite_fields) = some tnew
    rw [alookup_mergedMetadata, htold, hf]
    simp [mGet, htnew]
  · intro f hfne
    show alookup f (mergedMetadata ov.metadata nv.metadata pol.overwrite_fields) =
      alookup f ov.metadata
    apply alookup_mergedMetadata_not_mem
    rw [hf]
    simp [hfne]

/-- C10: in `Video.merge`, a field of `overwrite_fields` present in the
old metadata but absent from the new one is set to `None` (JSON `null`)
in the merged record rather than keeping the old value; and a field
present only in the new metadata is absent from the merged record, which
iterates over the old record's fields only. -/
theorem claim_C10_merge_field_semantics (ov nv : Video) (fields : List String)
    (f g : String) (vold w : JValue)
    (hf : f ∈ fields) (hold : alookup f ov.metadata = some vold)
    (hnew : alookup f nv.metadata = none) (hnn : vold ≠ .null)
    (hg : alookup g ov.metadata = none) (hgnew : alookup g nv.metadata = some w) :
    alookup f (ov.merge nv fields).metadata = some JValue.null ∧
    alookup f (ov.merge nv fields).metadata ≠ some vold ∧
    alookup g (ov.merge nv fields).metadata = none := by
  have h1 : alookup f (ov.merge nv fields).metadata = some JValue.null := by
    show alookup f (mergedMetadata ov.metadata nv.metadata fields) = some JValue.null
    rw [alookup_mergedMetadata, hold]
    simp [if_pos hf, mGet, hnew]
  refine ⟨h1, ?_, ?_⟩
  · rw [h1]
    intro hc
    injection hc with hc2
    exact hnn hc2.symm
  · show alookup g (mergedMetadata ov.metadata nv.metadata fields) = none
    rw [alookup_mergedMetadata, hg]
    rfl

/-! ## Claims C3 and C9: `Event.save_video_data` -/

/-- Every file present after the save loop either was already in the
starting directory or holds the serialized text of one of the saved
videos. -/
theorem foldl_saveVideo_mem (videos : List Video) (d0 : List (String × String)) :
    ∀ p ∈ videos.foldl saveVideo d0, p ∈ d0 ∨ ∃ v ∈ videos, p.2 = videoFileText v := by
  induction videos generalizing d0 with
  | nil => intro p hp; exact Or.inl hp
  | cons v t ih =>
    intro p hp
    rcases ih (saveVideo d0 v) p hp with h | ⟨v2, hv2, he⟩
    · unfold saveVideo at h
      rcases List.mem_append.1 h with h | h
      · exact Or.inl h
      · right
        refine ⟨v, List.mem_cons_self _ _, ?_⟩
        have hpe := List.mem_singleton.1 h
        rw [hpe]
    · exact Or.inr ⟨v2, List.mem_cons_of_mem _ hv2, he⟩

/-- C3: whenever `overwrite` is configured — merge mode included, the
wipe flag is NOT required — `save_video_data` first unlinks every
pre-existing `*.json` file of the videos directory and then writes the
final set, so every `*.json` file in the resulting directory holds the
serialized text of a record of the in-memory final set. -/
theorem claim_C3_overwrite_deletes (pol : OverwritePolicy)
    (dir : List (String × String)) (videos : List Video)
    (hov : pol.overwrite = true) :
    saveVideoData pol dir videos =
      videos.foldl saveVideo (dir.filter (fun p => !p.1.endsWith ".json")) ∧
    ∀ p ∈ saveVideoData pol dir videos, p.1.endsWith ".json" = true →
      p.2 ∈ videos.map videoFileText := by
  have hdef : saveVideoData pol dir videos =
      videos.foldl saveVideo (dir.filter (fun p => !p.1.endsWith ".json")) := by
    simp [saveVideoData, hov]
  refine ⟨hdef, ?_⟩
  intro p hp hjson
  rw [hdef] at hp
  rcases foldl_saveVideo_mem videos _ p hp with h | ⟨v, hv, he⟩
  · have h2 := (List.mem_filter.1 h).2
    rw [hjson] at h2
    simp at h2
  · rw [he]
    exact List.mem_map_of_mem _ hv

/-- Witness for C3: a merge policy without the wipe flag still deletes
the stale `old.json`. -/
theorem claim_C3_overwrite_deletes_witness :
    saveVideoData polMergeTitle [("old.json", "stale")] [vNewB] =
      [vNewB].foldl saveVideo
        ([("old.json", "stale")].filter (fun p => !p.1.endsWith ".json")) ∧
    ∀ p ∈ saveVideoData polMergeTitle [("old.json", "stale")] [vNewB],
      p.1.endsWith ".json" = true → p.2 ∈ [vNewB].map videoFileText :=
  claim_C3_overwrite_deletes polMergeTitle [("old.json", "stale")] [vNewB] rfl

/-- C9: an event configuring `overwrite` without the `all` flag and with
neither `add_new_files` nor `existing_files_fields` gets the policy
`(overwrite, no wipe, no add, no fields)`; with it no branch of
`merge_video_data` assigns `self.videos`, the final set stays empty, and
the save step leaves no record file in the videos directory (it erases
the old ones and writes none). -/
theorem claim_C9_empty_merge_branch (pol : OverwritePolicy) (fvs yvs : List Video)
    (dir : List (String × String))
    (hov : pol.overwrite = true) (hw : pol.wipe = false)
    (ha : pol.add_new_files = false) (hf : pol.overwrite_fields = []) :
    parseOverwrite (some ⟨false, false, []⟩) = ⟨true, false, false, []⟩ ∧
    mergeVideoData pol fvs yvs = ([], []) ∧
    ∀ p ∈ saveVideoData pol dir (mergeVideoData pol fvs yvs).1,
      p.1.endsWith ".json" ≠ true := by
  have hmerge : mergeVideoData pol fvs yvs = ([], []) := by
    simp [mergeVideoData, hov, hw, ha, hf]
  refine ⟨rfl, hmerge, ?_⟩
  intro p hp
  rw [hmerge] at hp
  have hsave : saveVideoData pol dir ((⟨[], []⟩ : List Video × List String)).1 =
      dir.filter (fun p => !p.1.endsWith ".json") := by
    simp [saveVideoData, hov]
  rw [hsave] at hp
  have h2 := (List.mem_filter.1 hp).2
  intro hj
  rw [hj] at h2
  simp at h2

/-- Witness for C9: concrete old/new records and a stale directory end
with no `.json` file at all. -/
theorem claim_C9_empty_merge_branch_witness :
    parseOverwrite (some ⟨false, false, []⟩) = ⟨true, false, false, []⟩ ∧
    mergeVideoData ⟨true, false, false, []⟩ [vOldA] [vNewB] = ([], []) ∧
    ∀ p ∈ saveVideoData ⟨true, false, false, []⟩ [("old.json", "stale")]
        (mergeVideoData ⟨true, false, false, []⟩ [vOldA] [vNewB]).1,
      p.1.endsWith ".json" ≠ true :=
  claim_C9_empty_merge_branch ⟨true, false, false, []⟩ [vOldA] [vNewB]
    [("old.json", "stale")] rfl rfl rfl rfl

/-! ## Claim C5: date clamping -/

/-- C5: with a date range declared, the recorded date is the extracted
upload date exactly on the in-range case and the configured default
otherwise; with no date range the extracted date is used verbatim. -/
theorem claim_C5_date_clamping (ctx : EventCtx) (s : String) (d : PyDate)
    (hparse : parseDate s = .ok d) :
    (ctx.know_date = true →
      ((ctx.date_begin.ble d && d.ble ctx.date_end) = true →
          calculateDateRecorded ctx s = .ok d.iso) ∧
      ((ctx.date_begin.ble d && d.ble ctx.date_end) = false →
          calculateDateRecorded ctx s = .ok ctx.date_default.iso)) ∧
    (ctx.know_date = false → calculateDateRecorded ctx s = .ok d.iso) := by
  unfold calculateDateRecorded
  rw [hparse]
  constructor
  · intro hkd
    constructor
    · intro hin
      simp [hkd, hin]
    · intro hout
      simp [hkd, hout]
  · intro hkd
    simp [hkd]

/-- Witness for C5: 2024-06-15 is kept, 2024-07-15 is clamped to the
default 2024-06-01. -/
theorem claim_C5_date_clamping_witness :
    calculateDateRecorded ctxJune "20240615" = .ok "2024-06-15" ∧
    calculateDateRecorded ctxJune "20240715" = .ok "2024-06-01" := by
  constructor
  · have h := ((claim_C5_date_clamping ctxJune "20240615" ⟨2024, 6, 15⟩ rfl).1 rfl).1 rfl
    rw [h]
    rfl
  · have h := ((claim_C5_date_clamping ctxJune "20240715" ⟨2024, 7, 15⟩ rfl).1 rfl).2 rfl
    rw [h]
    rfl

/-! ## Claim C4: error handling of the download loop -/

/-- If any present entry of the batch fails to normalize, the whole
download loop fails (the exception propagates). -/
theorem downloadVideoData_not_ok {ctx : EventCtx} {raw : RawVideo} {e : String}
    (hbad : fromYoutube ctx raw = .error e) :
    ∀ entries : List (Option RawVideo), some raw ∈ entries →
      ∀ vs w, downloadVideoData ctx entries ≠ .ok (vs, w) := by
  intro entries
  induction entries with
  | nil => intro h; simp at h
  | cons entry rest ih =>
    intro hmem vs w hc
    match entry with
    | none =>
      have hmem2 : some raw ∈ rest := by simpa using hmem
      simp only [downloadVideoData] at hc
      cases hrec : downloadVideoData ctx rest with
      | error e2 => rw [hrec] at hc; exact Except.noConfusion hc
      | ok p => exact ih hmem2 p.1 p.2 hrec
    | some r =>
      rcases List.mem_cons.1 hmem with h | hmem2
      · injection h with hr
        subst hr
        simp only [downloadVideoData, hbad] at hc
        exact Except.noConfusion hc
      · simp only [downloadVideoData] at hc
        cases hfy : fromYoutube ctx r with
        | error e2 => rw [hfy] at hc; exact Except.noConfusion hc
        | ok v =>
          rw [hfy] at hc
          cases hrec : downloadVideoData ctx rest with
          | error e2 => rw [hrec] at hc; exact Except.noConfusion hc
          | ok p => exact ih hmem2 p.1 p.2 hrec

/-- C4 counterexample: a malformed entry is NOT skipped: with a batch of
a good entry, an entry missing its required `thumbnail`, and another good
entry, the whole loop returns the `KeyError` instead of the two good
records. -/
theorem claim_C4_counterexample :
    downloadVideoData ctxPlain [some rawTalkA, some rawBroken, some rawTalkB] =
      .error "KeyError: thumbnail" := rfl

/-- C4 (amended): a null (falsy) scrape entry is logged as a warning and
skipped, the loop continuing with the remaining entries; but a present
entry whose normalization fails aborts the whole batch — the loop never
returns a result, rather than skipping that one video. -/
theorem claim_C4_malformed_aborts (ctx : EventCtx) (entries : List (Option RawVideo))
    (raw : RawVideo) (e : String) (rest : List (Option RawVideo))
    (hmem : some raw ∈ entries) (hbad : fromYoutube ctx raw = .error e) :
    (∀ vs w, downloadVideoData ctx entries ≠ .ok (vs, w)) ∧
    downloadVideoData ctx (none :: rest) =
      (downloadVideoData ctx rest).map (fun p => (p.1, p.2 + 1)) := by
  constructor
  · exact downloadVideoData_not_ok hbad entries hmem
  · simp only [downloadVideoData]
    cases hrec : downloadVideoData ctx rest with
    | error e2 => rfl
    | ok p => rfl

/-- Witness for C4: the concrete malformed batch never returns ok, and a
null entry before a good entry just bumps the warning count. -/
theorem claim_C4_malformed_aborts_witness :
    (∀ vs w, downloadVideoData ctxPlain [some rawTalkA, some rawBroken, some rawTalkB] ≠
      .ok (vs, w)) ∧
    downloadVideoData ctxPlain (none :: [some rawTalkA]) =
      (downloadVideoData ctxPlain [some rawTalkA]).map (fun p => (p.1, p.2 + 1)) :=
  claim_C4_malformed_aborts ctxPlain [some rawTalkA, some rawBroken, some rawTalkB]
    rawBroken "KeyError: thumbnail" [some rawTalkA]
    (List.mem_cons_of_mem _ (List.mem_cons_self _ _)) rfl

/-! ## Claim C7: collision suffixes at persistence time -/

/-- The `while` loop of `Video.save` returns the first candidate
`stem-k.json` (counting up from the start index) that is not taken. -/
theorem nextFree_eq (existing : List String) (stem : String) :
    ∀ (fuel n k : Nat), n ≤ k → k - n ≤ fuel →
      (∀ j, n ≤ j → j < k → candName stem j ∈ existing) →
      candName stem k ∉ existing →
      nextFree existing stem n fuel = candName stem k := by
  intro fuel
  induction fuel with
  | zero =>
    intro n k hnk hfuel _ _
    have hkn : k = n := by omega
    subst hkn
    rfl
  | succ fuel ih =>
    intro n k hnk hfuel htaken hfree
    by_cases hnk2 : n = k
    · subst hnk2
      simp only [nextFree]
      rw [if_neg hfree]
    · have hlt : n < k := by omega
      simp only [nextFree]
      rw [if_pos (htaken n le_rfl hlt)]
      exact ih (n + 1) k (by omega) (by omega)
        (fun j hj1 hj2 => htaken j (by omega) hj2) hfree

/-- C7: when the destination already exists, `Video.save` appends the
numeric suffixes `-2`, `-3`, ... and writes at the first free one; in the
no-prior-data scenario with two videos titled "Keynote", exactly
`keynote.json` and then `keynote-2.json` are written. -/
theorem claim_C7_collision_suffix (existing : List String) (stem : String) (k : Nat)
    (hbase : (stem ++ ".json") ∈ existing)
    (hk2 : 2 ≤ k) (hbound : k ≤ existing.length + 2)
    (htaken : ∀ j, 2 ≤ j → j < k → candName stem j ∈ existing)
    (hfree : candName stem k ∉ existing) :
    savePath existing stem = candName stem k ∧
    keynoteScenario = ["keynote.json", "keynote-2.json"] := by
  constructor
  · unfold savePath
    rw [if_pos hbase]
    exact nextFree_eq existing stem (existing.length + 1) 2 k hk2 (by omega) htaken hfree
  · rfl

/-- Witness for C7: with `keynote.json` and `keynote-2.json` taken, the
next write goes to `keynote-3.json`. -/
theorem claim_C7_collision_suffix_witness :
    savePath ["keynote.json", "keynote-2.json"] "keynote" = candName "keynote" 3 ∧
    keynoteScenario = ["keynote.json", "keynote-2.json"] :=
  claim_C7_collision_suffix ["keynote.json", "keynote-2.json"] "keynote" 3
    (by decide) (by decide) (by decide)
    (by
      intro j h1 h2
      have hj : j = 2 := by omega
      subst hj
      decide)
    (by decide)

/-! ## Witnesses for C6 and C10 -/

/-- Witness for C6: reconciling old record `a` with the matching scraped
record under `overwrite_fields = ['title']` keeps identifier `a` and
takes the new title. -/
theorem claim_C6_title_overwrite_witness :
    ∃ v ∈ (mergeVideoData polMergeTitle [vOldA] [vNewB]).1,
      v.filename = vOldA.filename ∧ v.filename = "a" ∧
      alookup "title" v.metadata = some (.str "New title") ∧
      ∀ f, f ≠ "title" → alookup f v.metadata = alookup f vOldA.metadata :=
  claim_C6_title_overwrite polMergeTitle [vOldA] [vNewB] "a" vOldA vNewB
    (.str "Old title") (.str "New title") rfl rfl rfl rfl rfl rfl rfl
    (by intro h; injection h with hs; exact absurd hs (by decide))

/-- Witness for C10: field `x` is in `overwrite_fields`, present in the
old record with value `"v"` but absent from the new one: the merged value
is `null`; field `y` exists only in the new record and is absent from the
merged record. -/
theorem claim_C10_merge_field_semantics_witness :
    alookup "x" ((⟨"a", [("x", .str "v"), ("t", .str "w")]⟩ : Video).merge
      ⟨"b", [("y", .num 1)]⟩ ["x"]).metadata = some JValue.null ∧
    alookup "x" ((⟨"a", [("x", .str "v"), ("t", .str "w")]⟩ : Video).merge
      ⟨"b", [("y", .num 1)]⟩ ["x"]).metadata ≠ some (.str "v") ∧
    alookup "y" ((⟨"a", [("x", .str "v"), ("t", .str "w")]⟩ : Video).merge
      ⟨"b", [("y", .num 1)]⟩ ["x"]).metadata = none :=
  claim_C10_merge_field_semantics ⟨"a", [("x", .str "v"), ("t", .str "w")]⟩
    ⟨"b", [("y", .num 1)]⟩ ["x"] "x" "y" (.str "v") (.num 1)
    (by decide) rfl rfl (by intro h; exact JValue.noConfusion h) rfl rfl

/-! ## Claim C8: serialization determinism -/

theorem char_toNat_inj {a b : Char} (h : a.toNat = b.toNat) : a = b := by
  have h2 := Char.ofNat_toNat a
  rw [h, Char.ofNat_toNat] at h2
  exact h2.symm

theorem strLeAux_refl : ∀ as : List Char, strLeAux as as = true := by
  intro as
  induction as with
  | nil => rfl
  | cons a as2 ih => simp [strLeAux, ih]

theorem strLeAux_total : ∀ as bs : List Char,
    strLeAux as bs = true ∨ strLeAux bs as = true := by
  intro as
  induction as with
  | nil => intro bs; exact Or.inl rfl
  | cons a as2 ih =>
    intro bs
    cases bs with
    | nil => exact Or.inr rfl
    | cons b bs2 =>
      by_cases hab : a.toNat = b.toNat
      · rcases ih bs2 with h | h
        · left; simp [strLeAux, hab, h]
        · right; simp [strLeAux, hab.symm, h]
      · rcases Nat.lt_or_ge a.toNat b.toNat with hlt | hge
        · left; simp [strLeAux, hab, hlt]
        · right
          have hba : b.toNat ≠ a.toNat := fun hh => hab hh.symm
          have hblt : b.toNat < a.toNat := by omega
          simp [strLeAux, hba, hblt]

theorem strLeAux_antisymm : ∀ as bs : List Char,
    strLeAux as bs = true → strLeAux bs as = true → as = bs := by
  intro as
  induction as with
  | nil =>
    intro bs _ h2
    cases bs with
    | nil => rfl
    | cons b bs2 => exact absurd h2 (by simp [strLeAux])
  | cons a as2 ih =>
    intro bs h1 h2
    cases bs with
    | nil => exact absurd h1 (by simp [strLeAux])
    | cons b bs2 =>
      by_cases hab : a.toNat = b.toNat
      · have ha : a = b := char_toNat_inj hab
        subst ha
        simp only [strLeAux, if_pos rfl] at h1 h2
        rw [ih bs2 h1 h2]
      · have hba : b.toNat ≠ a.toNat := fun hh => hab hh.symm
        simp only [strLeAux, if_neg hab, decide_eq_true_eq] at h1
        simp only [strLeAux, if_neg hba, decide_eq_true_eq] at h2
        omega

theorem strLeAux_trans : ∀ as bs cs : List Char,
    strLeAux as bs = true → strLeAux bs cs = true → strLeAux as cs = true := by
  intro as
  induction as with
  | nil => intro bs cs _ _; rfl
  | cons a as2 ih =>
    intro bs cs h1 h2
    cases bs with
    | nil => exact absurd h1 (by simp [strLeAux])
    | cons b bs2 =>
      cases cs with
      | nil => exact absurd h2 (by simp [strLeAux])
      | cons c cs2 =>
        by_cases hab : a.toNat = b.toNat
        · by_cases hbc : b.toNat = c.toNat
          · have hac : a.toNat = c.toNat := hab.trans hbc
            simp only [strLeAux, if_pos hab] at h1
            simp only [strLeAux, if_pos hbc] at h2
            simp only [strLeAux, if_pos hac]
            exact ih bs2 cs2 h1 h2
          · have hac : a.toNat ≠ c.toNat := by rw [hab]; exact hbc
            simp only [strLeAux, if_neg hbc, decide_eq_true_eq] at h2
            simp only [strLeAux, if_neg hac, decide_eq_true_eq]
            omega
        · simp only [strLeAux, if_neg hab, decide_eq_true_eq] at h1
          by_cases hbc : b.toNat = c.toNat
          · have hac : a.toNat ≠ c.toNat := by rw [← hbc]; exact hab
            simp only [strLeAux, if_neg hac, decide_eq_true_eq]
            omega
          · simp only [strLeAux, if_neg hbc, decide_eq_true_eq] at h2
            have hac : a.toNat ≠ c.toNat := by omega
            simp only [strLeAux, if_neg hac, decide_eq_true_eq]
            omega

theorem strLe_antisymm {s t : String} (h1 : strLe s t = true)
    (h2 : strLe t s = true) : s = t := by
  cases s with
  | mk ds =>
    cases t with
    | mk dt => exact congrArg String.mk (strLeAux_antisymm ds dt h1 h2)

instance : IsTotal (String × JValue) keyLe :=
  ⟨fun p q => strLeAux_total p.1.data q.1.data⟩

instance : IsTrans (String × JValue) keyLe :=
  ⟨fun p q r h1 h2 => strLeAux_trans p.1.data q.1.data r.1.data h1 h2⟩

/-- Two lists of pairs that are permutations of each other, have no
duplicate keys, and are both key-sorted, are equal. -/
theorem eq_of_key_sorted_perm : ∀ (l1 l2 : List (String × JValue)), l1.Perm l2 →
    (l1.map Prod.fst).Nodup → l1.Pairwise keyLe → l2.Pairwise keyLe → l1 = l2 := by
  intro l1
  induction l1 with
  | nil =>
    intro l2 hp _ _ _
    exact hp.nil_eq
  | cons a t1 ih =>
    intro l2 hp hnd hs1 hs2
    cases l2 with
    | nil => exact absurd (hp.eq_nil) (by simp)
    | cons b t2 =>
      have hbl1 : b ∈ a :: t1 := hp.mem_iff.2 (List.mem_cons_self b t2)
      have hal2 : a ∈ b :: t2 := hp.mem_iff.1 (List.mem_cons_self a t1)
      have hs1c := List.pairwise_cons.1 hs1
      have hs2c := List.pairwise_cons.1 hs2
      have hab : keyLe a b := by
        rcases List.mem_cons.1 hbl1 with h | hb
        · rw [h]; exact strLeAux_refl _
        · exact hs1c.1 b hb
      have hba : keyLe b a := by
        rcases List.mem_cons.1 hal2 with h | ha2
        · rw [h]; exact strLeAux_refl _
        · exact hs2c.1 a ha2
      have hk : a.1 = b.1 := strLe_antisymm hab hba
      have hae : b = a := by
        rcases List.mem_cons.1 hbl1 with h | hb
        · exact h
        · exfalso
          have hmem : b.1 ∈ t1.map Prod.fst := List.mem_map_of_mem _ hb
          rw [← hk] at hmem
          exact (List.nodup_cons.1 hnd).1 hmem
      subst hae
      have hp2 : t1.Perm t2 := hp.cons_inv
      rw [ih t2 hp2 (List.nodup_cons.1 hnd).2 hs1c.2 hs2c.2]

/-- The serializer's key sort is insensitive to the insertion order of a
dict with no duplicate keys. -/
theorem sortPairs_eq_of_perm {m1 m2 : List (String × JValue)} (h : m1.Perm m2)
    (hnd : (m1.map Prod.fst).Nodup) : sortPairs m1 = sortPairs m2 := by
  apply eq_of_key_sorted_perm
  · exact (List.perm_insertionSort keyLe m1).trans
      (h.trans (List.perm_insertionSort keyLe m2).symm)
  · have hperm : List.Perm ((sortPairs m1).map Prod.fst) (m1.map Prod.fst) :=
      (List.perm_insertionSort keyLe m1).map Prod.fst
    exact hperm.nodup_iff.2 hnd
  · exact List.sorted_insertionSort keyLe m1
  · exact List.sorted_insertionSort keyLe m2

/-- The file text written for a record does not depend on the insertion
order of its (duplicate-free) metadata dict. -/
theorem videoFileText_perm {m1 m2 : List (String × JValue)} (h : m1.Perm m2)
    (hnd : (m1.map Prod.fst).Nodup) (name : String) :
    videoFileText ⟨name, m1⟩ = videoFileText ⟨name, m2⟩ := by
  unfold videoFileText jsonDumps
  cases m1 with
  | nil =>
    have h2 : m2 = [] := h.symm.eq_nil
    subst h2
    rfl
  | cons p ps =>
    cases m2 with
    | nil => exact absurd h.eq_nil (by simp)
    | cons q qs =>
      have hsp : sortPairs (p :: ps) = sortPairs (q :: qs) := sortPairs_eq_of_perm h hnd
      simp only [dumpVal]
      rw [hsp]

/-- C8: serialization is deterministic: serializing a record set twice
yields the same bytes; two metadata dicts holding the same key-value
pairs (in any insertion order, keys duplicate-free) serialize to the same
bytes because keys are sorted; every record file ends with the trailing
newline; and the encoding uses sorted keys, two-space indentation and the
fixed `', '`/`': '` separators, as the concrete rendering shows. -/
theorem claim_C8_serialization_deterministic (videos : List Video)
    (m1 m2 : List (String × JValue)) (name : String)
    (hperm : m1.Perm m2) (hnd : (m1.map Prod.fst).Nodup) :
    videos.map videoFileText = videos.map videoFileText ∧
    videoFileText ⟨name, m1⟩ = videoFileText ⟨name, m2⟩ ∧
    (∀ v : Video, ∃ body, videoFileText v = body ++ "\n") ∧
    jsonDumps (.obj [("b", .num 1), ("a", .str "x")]) =
      "\x7b\n  \x22a\x22: \x22x\x22,\n  \x22b\x22: 1\n\x7d" := by
  refine ⟨rfl, videoFileText_perm hperm hnd name,
    fun v => ⟨jsonDumps (.obj v.metadata), rfl⟩, ?_⟩
  have hs : sortPairs [("b", JValue.num 1), ("a", JValue.str "x")] =
      [("a", JValue.str "x"), ("b", JValue.num 1)] := by
    simp only [sortPairs, List.insertionSort, List.orderedInsert]
    rw [if_neg (by decide)]
  simp only [jsonDumps, dumpVal, dumpPairs, hs]
  rfl

/-- Witness for C8: the same two-entry dict in its two insertion orders
serializes identically. -/
theorem claim_C8_serialization_deterministic_witness :
    [] = ([] : List String) ∧
    videoFileText ⟨"x", [("b", JValue.num 1), ("a", JValue.str "x")]⟩ =
      videoFileText ⟨"x", [("a", JValue.str "x"), ("b", JValue.num 1)]⟩ ∧
    (∀ v : Video, ∃ body, videoFileText v = body ++ "\n") ∧
    jsonDumps (.obj [("b", .num 1), ("a", .str "x")]) =
      "\x7b\n  \x22a\x22: \x22x\x22,\n  \x22b\x22: 1\n\x7d" := by
  have h := claim_C8_serialization_deterministic []
    [("b", JValue.num 1), ("a", JValue.str "x")]
    [("a", JValue.str "x"), ("b", JValue.num 1)] "x"
    (List.Perm.swap ("a", JValue.str "x") ("b", JValue.num 1) [])
    (by simp)
  exact ⟨rfl, h.2.1, h.2.2.1, h.2.2.2⟩

end PyvideoScrape

